import Mathlib

/-!
Verification of the constrained shortest-path solver and the indexed
min-priority-queue of the graph-visualization backend.

The embedding translates `src/backend/src/minheap.cpp`, `graph.cpp` and
`dijkstra.cpp`.  C++ `std::unordered_map` values are modelled as extensional
partial maps (`Int → Option _`); reading an absent key through `operator[]`
(which value-initialises) is modelled by total maps with default `0` where the
source relies on that behaviour.  C++ `int` arithmetic is modelled on `Int`
with the `numeric_limits<int>::max()` sentinel written out explicitly; C++
integer division truncates toward zero, hence `Int.tdiv`.  The two unbounded
loops of `dijkstraWithBattery` (the main Dijkstra loop and the predecessor
walk) and the recursive heap percolations are given explicit fuel; the fuel is
a step bound, every bounded run of the C++ loop is reproduced by a large
enough fuel, and fuel exhaustion is signalled by `none` / by returning the
state unchanged where the remaining steps would not change it.
-/

/-- Pointwise update of a total map, modelling `unordered_map<int,int>`
assignment `m[k] = v`. -/
def fset (m : Int → Int) (k v : Int) : Int → Int :=
  fun x => if x = k then v else m x

/-- Pointwise update of a partial map, modelling `unordered_map` insertion or
assignment through `operator[]`. -/
def mapInsert (m : Int → Option Nat) (k : Int) (v : Nat) : Int → Option Nat :=
  fun x => if x = k then some v else m x

/-- Pointwise removal, modelling `unordered_map::erase`. -/
def mapErase (m : Int → Option Nat) (k : Int) : Int → Option Nat :=
  fun x => if x = k then none else m x

/-! ## minheap.h / minheap.cpp -/

/-- `struct HeapNode` of `minheap.h` (`nodeId`, `distance`). -/
structure HeapNode where
  nodeId : Int
  distance : Int
deriving DecidableEq

/-- `class MinHeap`: the dense array of entries and the node-to-slot index.
`nodeToIndex` models the `unordered_map<int,int> nodeToIndex` member. -/
structure MinHeap where
  heap : List HeapNode
  nodeToIndex : Int → Option Nat

/-- Reading `heap[i]`; every internal read in the source is in range, the
default entry is never observable there. -/
def heapGet (l : List HeapNode) (i : Nat) : HeapNode :=
  (l.get? i).getD ⟨0, 0⟩

/-- The distance stored at slot `i`. -/
def dAt (l : List HeapNode) (i : Nat) : Int :=
  (heapGet l i).distance

/-- Binary-heap parent index `(i - 1) / 2`. -/
def par (i : Nat) : Nat := (i - 1) / 2

/-- The vector part of `MinHeap::swapNodes`. -/
def listSwap (l : List HeapNode) (i j : Nat) : List HeapNode :=
  (l.set i (heapGet l j)).set j (heapGet l i)

/-- `MinHeap::swapNodes`: swap two slots and re-point both index entries,
reading the node ids from the already-swapped vector as the source does.
The C++ function throws `out_of_range` outside the bounds; internal callers
always pass in-range indices, so the out-of-range case returns the state
unchanged. -/
def MinHeap.swapNodes (h : MinHeap) (index1 index2 : Nat) : MinHeap :=
  if index1 < h.heap.length ∧ index2 < h.heap.length then
    let l := listSwap h.heap index1 index2
    { heap := l,
      nodeToIndex :=
        mapInsert (mapInsert h.nodeToIndex (heapGet l index1).nodeId index1)
          (heapGet l index2).nodeId index2 }
  else h

/-- `MinHeap::bubbleUp`, with fuel for the self-recursion.  The index strictly
decreases at each call, so fuel `index` always suffices (at fuel `0` the index
is `0` and the source returns immediately as well). -/
def MinHeap.bubbleUpFuel : MinHeap → Nat → Nat → MinHeap
  | h, 0, _ => h
  | h, fuel + 1, index =>
    if index = 0 then h
    else if dAt h.heap (par index) < dAt h.heap index then h
    else (h.swapNodes index (par index)).bubbleUpFuel fuel (par index)

/-- `MinHeap::bubbleUp(index)`. -/
def MinHeap.bubbleUp (h : MinHeap) (index : Nat) : MinHeap :=
  h.bubbleUpFuel index index

/-- The `smallest` computed by one step of `MinHeap::bubbleDown`:
`!(heap[c] > heap[smallest])` selects the child. -/
def downSmallest (l : List HeapNode) (index : Nat) : Nat :=
  let leftChild := 2 * index + 1
  let rightChild := 2 * index + 2
  let smallest :=
    if leftChild < l.length ∧ ¬ dAt l index < dAt l leftChild then leftChild
    else index
  if rightChild < l.length ∧ ¬ dAt l smallest < dAt l rightChild then rightChild
  else smallest

/-- `MinHeap::bubbleDown`, with fuel for the self-recursion.  The index
strictly increases while staying below the (fixed) length, so fuel
`heap.length` always suffices. -/
def MinHeap.bubbleDownFuel : MinHeap → Nat → Nat → MinHeap
  | h, 0, _ => h
  | h, fuel + 1, index =>
    if downSmallest h.heap index = index then h
    else
      (h.swapNodes index (downSmallest h.heap index)).bubbleDownFuel fuel
        (downSmallest h.heap index)

/-- `MinHeap::bubbleDown(index)`. -/
def MinHeap.bubbleDown (h : MinHeap) (index : Nat) : MinHeap :=
  h.bubbleDownFuel h.heap.length index

/-- `MinHeap::contains`. -/
def MinHeap.contains (h : MinHeap) (nodeId : Int) : Bool :=
  (h.nodeToIndex nodeId).isSome

/-- `MinHeap::isEmpty`. -/
def MinHeap.isEmpty (h : MinHeap) : Bool :=
  h.heap.isEmpty

/-- `MinHeap::size`. -/
def MinHeap.size (h : MinHeap) : Nat :=
  h.heap.length

/-- `MinHeap::clear`. -/
def MinHeap.clear (_ : MinHeap) : MinHeap :=
  ⟨[], fun _ => none⟩

/-- The body of `MinHeap::decreaseKey` after the slot lookup: no-op unless the
new distance is strictly smaller, otherwise store it and bubble up. -/
def MinHeap.decreaseKeyAt (h : MinHeap) (index : Nat) (newDistance : Int) : MinHeap :=
  if (heapGet h.heap index).distance ≤ newDistance then h
  else
    ({ h with
        heap := h.heap.set index ⟨(heapGet h.heap index).nodeId, newDistance⟩ }).bubbleUp
      index

/-- `MinHeap::decreaseKey`: throws `invalid_argument` when the node is absent
(`contains` is exactly the success of the index lookup). -/
def MinHeap.decreaseKey (h : MinHeap) (nodeId newDistance : Int) :
    Except String MinHeap :=
  match h.nodeToIndex nodeId with
  | none => .error "Node not found in heap"
  | some index => .ok (h.decreaseKeyAt index newDistance)

/-- `MinHeap::addNode`: an already-present node is routed to `decreaseKey`
(which cannot fail then), otherwise the entry is appended and bubbled up. -/
def MinHeap.addNode (h : MinHeap) (nodeId distance : Int) : MinHeap :=
  match h.nodeToIndex nodeId with
  | some index => h.decreaseKeyAt index distance
  | none =>
    let h' : MinHeap :=
      ⟨h.heap ++ [⟨nodeId, distance⟩], mapInsert h.nodeToIndex nodeId h.heap.length⟩
    h'.bubbleUp h.heap.length

/-- `MinHeap::deleteRoot`: throws `runtime_error` on the empty heap; on a
one-entry heap both members are cleared; otherwise the last entry moves into
the root slot, the index entries of the removed and the moved node are
updated, and the root is bubbled down. -/
def MinHeap.deleteRoot (h : MinHeap) : Except String (HeapNode × MinHeap) :=
  match h.heap with
  | [] => .error "Cannot delete from empty heap"
  | root :: rest =>
    if rest = [] then .ok (root, ⟨[], fun _ => none⟩)
    else
      let last := heapGet h.heap (h.heap.length - 1)
      let l := (h.heap.set 0 last).dropLast
      let m := mapInsert (mapErase h.nodeToIndex root.nodeId) last.nodeId 0
      .ok (root, MinHeap.bubbleDown ⟨l, m⟩ 0)

/-! ## graph.h / graph.cpp -/

/-- `struct Node` of `graph.h`.  The `x`, `y` members are `double` positions
used only by the external visualisation layer; no solver code path reads
them, so they are not modelled. -/
structure Node where
  id : Int
deriving DecidableEq

/-- `class Graph`: the node vector, the adjacency map
`unordered_map<int, vector<pair<int,int>>>` and the weight map
`unordered_map<int, unordered_map<int,int>>` (curried here; the solver never
reads it). The `name` string member is not modelled. -/
structure Graph where
  nodes : List Node
  adjacencyList : Int → Option (List (Int × Int))
  edgeWeights : Int → Int → Option Int

/-- The default-constructed `Graph()`. -/
def Graph.empty : Graph :=
  ⟨[], fun _ => none, fun _ _ => none⟩

/-- `Graph::addNode` (the position-update branch for an existing node only
touches the unmodelled coordinates). -/
def Graph.addNode (g : Graph) (id : Int) : Graph :=
  if g.nodes.any (fun n => n.id = id) then g
  else
    { g with
        nodes := g.nodes ++ [⟨id⟩],
        adjacencyList := fun x => if x = id then some [] else g.adjacencyList x }

/-- Write `edgeWeights[a][b] = w`. -/
def ewSet (ew : Int → Int → Option Int) (a b w : Int) : Int → Int → Option Int :=
  fun x y => if x = a ∧ y = b then some w else ew x y

/-- `Graph::addEdge`: ensure both endpoints exist; if the edge is already in
`from`'s list only that direction's weight is updated (as in the source);
otherwise the edge is appended to both adjacency vectors and recorded in both
directions of `edgeWeights`. -/
def Graph.addEdge (g : Graph) (fromId toId weight : Int) : Graph :=
  let g1 := (g.addNode fromId).addNode toId
  let adjFrom := (g1.adjacencyList fromId).getD []
  if adjFrom.any (fun p => p.1 = toId) then
    { g1 with
        adjacencyList := fun x =>
          if x = fromId then
            some (adjFrom.map (fun p => if p.1 = toId then (p.1, weight) else p))
          else g1.adjacencyList x,
        edgeWeights := ewSet g1.edgeWeights fromId toId weight }
  else
    let g2 : Graph :=
      { g1 with
          adjacencyList := fun x =>
            if x = fromId then some (adjFrom ++ [(toId, weight)])
            else g1.adjacencyList x }
    let adjTo := (g2.adjacencyList toId).getD []
    { g2 with
        adjacencyList := fun x =>
          if x = toId then some (adjTo ++ [(fromId, weight)])
          else g2.adjacencyList x,
        edgeWeights := ewSet (ewSet g2.edgeWeights fromId toId weight) toId fromId weight }

/-- `Graph::getNodes`. -/
def Graph.getNodes (g : Graph) : List Node :=
  g.nodes

/-- `Graph::getNeighbors`: the adjacency vector when an entry exists, the
empty vector otherwise — never an error. -/
def Graph.getNeighbors (g : Graph) (node : Int) : List (Int × Int) :=
  match g.adjacencyList node with
  | some v => v
  | none => []

/-- `Graph::getNode`: the first node of the vector with the requested id;
the C++ function throws `out_of_range` when there is none. -/
def Graph.getNode (g : Graph) (nodeId : Int) : Option Node :=
  g.nodes.find? (fun n => n.id = nodeId)

/-- `Graph::getNodeCount`. -/
def Graph.getNodeCount (g : Graph) : Nat :=
  g.nodes.length

/-! ## dijkstra.cpp -/

/-- `numeric_limits<int>::max()`, the "infinite" sentinel. -/
def INT_MAX : Int := 2147483647

/-- `struct PathfindingResult`.  The C++ struct's `int` members are
indeterminate until assigned (`PathfindingResult result;` performs no value
initialisation), so they are modelled as `Option Int` with `none` for "left
unassigned"; the `path` vector and `message` string default-construct to
empty, and `success` is assigned `false` immediately. -/
structure PathfindingResult where
  path : List Int
  totalDistance : Option Int
  totalBatteryUsed : Option Int
  success : Bool
  message : String
deriving DecidableEq

/-- The battery charge of one edge:
`batteryConsumption = edgeWeight / mileage` (C++ truncating division),
raised to the minimum consumption `1`. -/
def batteryConsumption (edgeWeight mileage : Int) : Int :=
  let c := Int.tdiv edgeWeight mileage
  if c < 1 then 1 else c

/-- The relaxation gate of `dijkstraWithBattery`:
`newBatteryUsed <= initialBattery && newDistance < distances[neighborNode]`. -/
def relaxCondition (initialBattery newBatteryUsed newDistance currentDist : Int) : Bool :=
  decide (newBatteryUsed ≤ initialBattery) && decide (newDistance < currentDist)

/-- The per-neighbor body of the relaxation loop of `dijkstraWithBattery`. -/
def relaxStep (initialBattery mileage currentNode : Int)
    (st : MinHeap × (Int → Int) × (Int → Int) × (Int → Int)) (nb : Int × Int) :
    MinHeap × (Int → Int) × (Int → Int) × (Int → Int) :=
  let (minHeap, distances, batteryUsed, previous) := st
  let neighborNode := nb.1
  let edgeWeight := nb.2
  let consumption := batteryConsumption edgeWeight mileage
  let newBatteryUsed := batteryUsed currentNode + consumption
  let newDistance := distances currentNode + edgeWeight
  if relaxCondition initialBattery newBatteryUsed newDistance (distances neighborNode) then
    let minHeap' :=
      match minHeap.nodeToIndex neighborNode with
      | some index => minHeap.decreaseKeyAt index newDistance
      | none => minHeap.addNode neighborNode newDistance
    (minHeap', fset distances neighborNode newDistance,
      fset batteryUsed neighborNode newBatteryUsed,
      fset previous neighborNode currentNode)
  else st

/-- The `while (!minHeap.isEmpty())` loop of `dijkstraWithBattery`, returning
the final `distances`, `batteryUsed` and `previous` maps; `none` when the
fuel is exhausted before the loop ends. -/
def dijkstraLoop (g : Graph) (destination initialBattery mileage : Int) :
    Nat → MinHeap × (Int → Int) × (Int → Int) × (Int → Int) →
    Option ((Int → Int) × (Int → Int) × (Int → Int))
  | 0, (minHeap, distances, batteryUsed, previous) =>
    if minHeap.isEmpty then some (distances, batteryUsed, previous) else none
  | fuel + 1, (minHeap, distances, batteryUsed, previous) =>
    if minHeap.isEmpty then some (distances, batteryUsed, previous)
    else
      match minHeap.deleteRoot with
      | .error _ => none
      | .ok (current, minHeap') =>
        if current.nodeId = destination then some (distances, batteryUsed, previous)
        else
          dijkstraLoop g destination initialBattery mileage fuel
            ((g.getNeighbors current.nodeId).foldl
              (relaxStep initialBattery mileage current.nodeId)
              (minHeap', distances, batteryUsed, previous))

/-- The `while (current != -1)` predecessor walk, building the path from the
destination backwards; `none` when the fuel is exhausted first. -/
def reconstructPath : Nat → (Int → Int) → Int → Option (List Int)
  | 0, _, current => if current = -1 then some [] else none
  | fuel + 1, previous, current =>
    if current = -1 then some []
    else (reconstructPath fuel previous (previous current)).map (current :: ·)

/-- `dijkstraWithBattery(graph, source, destination, initialBattery, mileage)`.
Branch order follows the source exactly: the trivial source-equals-destination
return precedes the endpoint-existence check (`getNode` inside `try`), which
precedes the `getNodeCount() == 0` check.  The three state maps are
`unordered_map<int,int>` whose `operator[]` value-initialises absent keys to
`0`; the node-initialisation loop then sets every graph node to the sentinel
(`INT_MAX`) resp. `-1` before the source is seeded. -/
def dijkstraWithBattery (fuel : Nat) (graph : Graph)
    (source destination initialBattery mileage : Int) : Option PathfindingResult :=
  if source = destination then
    some ⟨[source], some 0, some 0, true, "Source and destination are the same"⟩
  else
    match graph.getNode source, graph.getNode destination with
    | some _, some _ =>
      if graph.getNodeCount = 0 then
        some ⟨[], none, none, false, "Graph is empty"⟩
      else
        let init :=
          graph.getNodes.foldl
            (fun (maps : (Int → Int) × (Int → Int) × (Int → Int)) node =>
              (fset maps.1 node.id INT_MAX, fset maps.2.1 node.id INT_MAX,
                fset maps.2.2 node.id (-1)))
            (fun _ => 0, fun _ => 0, fun _ => 0)
        let distances := fset init.1 source 0
        let batteryUsed := fset init.2.1 source 0
        let previous := init.2.2
        let minHeap := MinHeap.addNode ⟨[], fun _ => none⟩ source 0
        match dijkstraLoop graph destination initialBattery mileage fuel
            (minHeap, distances, batteryUsed, previous) with
        | none => none
        | some (distances, batteryUsed, previous) =>
          if distances destination = INT_MAX then
            some ⟨[], none, none, false, "No path exists within battery constraints"⟩
          else
            match reconstructPath fuel previous destination with
            | none => none
            | some path =>
              some ⟨path.reverse, some (distances destination),
                some (batteryUsed destination), true, "Path found successfully"⟩
    | _, _ => some ⟨[], none, none, false, "Invalid source or destination node"⟩

/-! ## Reading and updating heap slots -/

theorem heapGet_nil (n : Nat) : heapGet [] n = ⟨0, 0⟩ := by
  cases n <;> rfl

theorem heapGet_cons_zero (x : HeapNode) (l : List HeapNode) : heapGet (x :: l) 0 = x := rfl

theorem heapGet_cons_succ (x : HeapNode) (l : List HeapNode) (n : Nat) :
    heapGet (x :: l) (n + 1) = heapGet l n := rfl

theorem heapGet_set_self :
    ∀ (l : List HeapNode) (i : Nat) (a : HeapNode), i < l.length →
      heapGet (l.set i a) i = a
  | [], i, _, hi => absurd hi (by simp)
  | _ :: _, 0, _, _ => rfl
  | _ :: l, i + 1, a, hi =>
    heapGet_set_self l i a (by simpa using hi)

theorem heapGet_set_ne :
    ∀ (l : List HeapNode) (i j : Nat) (a : HeapNode), i ≠ j →
      heapGet (l.set i a) j = heapGet l j
  | [], _, _, _, _ => rfl
  | _ :: _, 0, 0, _, hij => absurd rfl hij
  | _ :: _, 0, _ + 1, _, _ => rfl
  | _ :: _, _ + 1, 0, _, _ => rfl
  | _ :: l, i + 1, j + 1, a, hij =>
    heapGet_set_ne l i j a (fun h => hij (by omega))

theorem heapGet_append_lt :
    ∀ (l : List HeapNode) (x : HeapNode) (i : Nat), i < l.length →
      heapGet (l ++ [x]) i = heapGet l i
  | [], _, i, hi => absurd hi (by simp)
  | _ :: _, _, 0, _ => rfl
  | _ :: l, x, i + 1, hi => heapGet_append_lt l x i (by simpa using hi)

theorem heapGet_append_self :
    ∀ (l : List HeapNode) (x : HeapNode), heapGet (l ++ [x]) l.length = x
  | [], _ => rfl
  | _ :: l, x => heapGet_append_self l x

theorem heapGet_dropLast :
    ∀ (l : List HeapNode) (i : Nat), i + 1 < l.length →
      heapGet l.dropLast i = heapGet l i
  | [], _, hi => absurd hi (by simp)
  | [_], _, hi => absurd hi (by simp)
  | _ :: _ :: _, 0, _ => rfl
  | _ :: y :: l, i + 1, hi => heapGet_dropLast (y :: l) i (by simpa using hi)

theorem dAt_eq (l : List HeapNode) (i : Nat) : dAt l i = (heapGet l i).distance := rfl

theorem par_lt {i : Nat} (hi : 0 < i) : par i < i := by
  unfold par; omega

theorem par_children {c j : Nat} (hc : 0 < c) (hp : par c = j) :
    c = 2 * j + 1 ∨ c = 2 * j + 2 := by
  unfold par at hp; omega

/-! ## Swapping two heap slots -/

theorem listSwap_length (l : List HeapNode) (i j : Nat) :
    (listSwap l i j).length = l.length := by
  simp [listSwap]

theorem heapGet_listSwap_left {l : List HeapNode} {i j : Nat} (hi : i < l.length)
    (hij : i ≠ j) : heapGet (listSwap l i j) i = heapGet l j := by
  unfold listSwap
  rw [heapGet_set_ne _ _ _ _ (fun h => hij h.symm), heapGet_set_self _ _ _ hi]

theorem heapGet_listSwap_right {l : List HeapNode} {i j : Nat} (hj : j < l.length) :
    heapGet (listSwap l i j) j = heapGet l i := by
  unfold listSwap
  rw [heapGet_set_self _ _ _ (by simpa using hj)]

theorem heapGet_listSwap_other {l : List HeapNode} {i j k : Nat} (hki : k ≠ i)
    (hkj : k ≠ j) : heapGet (listSwap l i j) k = heapGet l k := by
  unfold listSwap
  rw [heapGet_set_ne _ _ _ _ (fun h => hkj h.symm), heapGet_set_ne _ _ _ _ (fun h => hki h.symm)]

theorem swapNodes_heap {h : MinHeap} {i j : Nat} (hi : i < h.heap.length)
    (hj : j < h.heap.length) : (h.swapNodes i j).heap = listSwap h.heap i j := by
  unfold MinHeap.swapNodes
  rw [if_pos ⟨hi, hj⟩]

theorem swapNodes_map {h : MinHeap} {i j : Nat} (hi : i < h.heap.length)
    (hj : j < h.heap.length) (hij : i ≠ j) :
    (h.swapNodes i j).nodeToIndex =
      mapInsert (mapInsert h.nodeToIndex (heapGet h.heap j).nodeId i)
        (heapGet h.heap i).nodeId j := by
  unfold MinHeap.swapNodes
  rw [if_pos ⟨hi, hj⟩]
  simp only [heapGet_listSwap_left hi hij, heapGet_listSwap_right hj]

theorem swapNodes_length (h : MinHeap) (i j : Nat) :
    (h.swapNodes i j).heap.length = h.heap.length := by
  unfold MinHeap.swapNodes
  split
  · simp [listSwap]
  · rfl

theorem dAt_swapNodes {h : MinHeap} {i j : Nat} (hi : i < h.heap.length)
    (hj : j < h.heap.length) (hij : i ≠ j) (k : Nat) :
    dAt (h.swapNodes i j).heap k =
      if k = i then dAt h.heap j else if k = j then dAt h.heap i else dAt h.heap k := by
  rw [dAt_eq, swapNodes_heap hi hj]
  by_cases hki : k = i
  · subst hki; rw [heapGet_listSwap_left hi hij, if_pos rfl]; rfl
  · by_cases hkj : k = j
    · subst hkj; rw [heapGet_listSwap_right hj, if_neg hki, if_pos rfl]; rfl
    · rw [heapGet_listSwap_other hki hkj, if_neg hki, if_neg hkj]; rfl

/-! ## The heap invariant: order plus index consistency -/

/-- The heap-order property: every non-root entry is at least its parent. -/
def HeapOrdered (l : List HeapNode) : Prop :=
  ∀ i, i < l.length → 0 < i → dAt l (par i) ≤ dAt l i

/-- The index map sends exactly the node ids stored in the heap vector to
their current slots. -/
def MapConsistent (h : MinHeap) : Prop :=
  (∀ j, j < h.heap.length → h.nodeToIndex (heapGet h.heap j).nodeId = some j) ∧
  (∀ k i, h.nodeToIndex k = some i → i < h.heap.length ∧ (heapGet h.heap i).nodeId = k)

/-- The invariant maintained by every public `MinHeap` operation. -/
def MinHeapInv (h : MinHeap) : Prop :=
  HeapOrdered h.heap ∧ MapConsistent h

theorem mapConsistent_id_inj {h : MinHeap} (hmc : MapConsistent h) {i j : Nat}
    (hi : i < h.heap.length) (hj : j < h.heap.length)
    (heq : (heapGet h.heap i).nodeId = (heapGet h.heap j).nodeId) : i = j := by
  have h1 := hmc.1 i hi
  have h2 := hmc.1 j hj
  rw [heq] at h1
  rw [h1] at h2
  exact Option.some_injective _ h2

theorem mapConsistent_swapNodes {h : MinHeap} (hmc : MapConsistent h) {i j : Nat}
    (hi : i < h.heap.length) (hj : j < h.heap.length) (hij : i ≠ j) :
    MapConsistent (h.swapNodes i j) := by
  have hlen := swapNodes_length h i j
  have hheap := swapNodes_heap hi hj
  have hmap := swapNodes_map hi hj hij
  have hidne : (heapGet h.heap i).nodeId ≠ (heapGet h.heap j).nodeId := by
    intro he; exact hij (mapConsistent_id_inj hmc hi hj he)
  have getl : ∀ k : Nat, heapGet (h.swapNodes i j).heap k =
      if k = i then heapGet h.heap j else if k = j then heapGet h.heap i
      else heapGet h.heap k := by
    intro k
    rw [hheap]
    by_cases hki : k = i
    · subst hki; rw [heapGet_listSwap_left hi hij, if_pos rfl]
    · by_cases hkj : k = j
      · subst hkj; rw [heapGet_listSwap_right hj, if_neg hki, if_pos rfl]
      · rw [heapGet_listSwap_other hki hkj, if_neg hki, if_neg hkj]
  have getm : ∀ x : Int, (h.swapNodes i j).nodeToIndex x =
      if x = (heapGet h.heap i).nodeId then some j
      else if x = (heapGet h.heap j).nodeId then some i
      else h.nodeToIndex x := by
    intro x
    rw [hmap]
    simp only [mapInsert]
  constructor
  · intro k hk
    rw [hlen] at hk
    rw [getl k]
    by_cases hki : k = i
    · subst hki
      rw [if_pos rfl, getm]
      rw [if_neg (fun he => hidne he.symm), if_pos rfl]
    · by_cases hkj : k = j
      · subst hkj
        rw [if_neg hki, if_pos rfl, getm, if_pos rfl]
      · rw [if_neg hki, if_neg hkj, getm]
        rw [if_neg (fun he => hki (mapConsistent_id_inj hmc hk hi he)),
          if_neg (fun he => hkj (mapConsistent_id_inj hmc hk hj he))]
        exact hmc.1 k hk
  · intro x idx hx
    rw [getm] at hx
    rw [hlen, getl]
    by_cases hx1 : x = (heapGet h.heap i).nodeId
    · rw [if_pos hx1] at hx
      have : idx = j := (Option.some_injective _ hx).symm
      subst this
      rw [if_neg (fun he => hij he.symm), if_pos rfl]
      exact ⟨hj, hx1.symm⟩
    · rw [if_neg hx1] at hx
      by_cases hx2 : x = (heapGet h.heap j).nodeId
      · rw [if_pos hx2] at hx
        have : idx = i := (Option.some_injective _ hx).symm
        subst this
        rw [if_pos rfl]
        exact ⟨hi, hx2.symm⟩
      · rw [if_neg hx2] at hx
        obtain ⟨hidx, hid⟩ := hmc.2 x idx hx
        have hxi : idx ≠ i := fun he => hx1 (by rw [← hid, he])
        have hxj : idx ≠ j := fun he => hx2 (by rw [← hid, he])
        rw [if_neg hxi, if_neg hxj]
        exact ⟨hidx, hid⟩

/-! ## Percolation preserves the invariant -/

/-- Sift-up intermediate state: every parent-child edge is ordered except
possibly the one into slot `j`, and `j`'s children already fit below `j`'s
parent (so that parent may move down into `j`). -/
def UpOK (l : List HeapNode) (j : Nat) : Prop :=
  (∀ i, i < l.length → 0 < i → i ≠ j → dAt l (par i) ≤ dAt l i) ∧
  (0 < j → ∀ c, c < l.length → par c = j → dAt l (par j) ≤ dAt l c)

/-- Sift-down intermediate state: every parent-child edge is ordered except
possibly the ones out of slot `j`, and `j`'s children already fit below `j`'s
parent. -/
def DownOK (l : List HeapNode) (j : Nat) : Prop :=
  (∀ i, i < l.length → 0 < i → par i ≠ j → dAt l (par i) ≤ dAt l i) ∧
  (0 < j → ∀ c, c < l.length → par c = j → dAt l (par j) ≤ dAt l c)

theorem downSmallest_spec (l : List HeapNode) (j : Nat) :
    (downSmallest l j = j ∧
      ∀ c, c < l.length → par c = j → 0 < c → dAt l j ≤ dAt l c) ∨
    (j < downSmallest l j ∧ downSmallest l j < l.length ∧ par (downSmallest l j) = j ∧
      dAt l (downSmallest l j) ≤ dAt l j ∧
      ∀ c, c < l.length → par c = j → 0 < c → dAt l (downSmallest l j) ≤ dAt l c) := by
  have hch : ∀ c, 0 < c → par c = j → c = 2 * j + 1 ∨ c = 2 * j + 2 :=
    fun c hc hp => par_children hc hp
  simp only [downSmallest]
  split_ifs with h1 h2 h2
  · refine Or.inr ⟨by omega, h2.1, by unfold par; omega, by omega, ?_⟩
    intro c hc hpc hc0
    rcases hch c hc0 hpc with rfl | rfl <;> omega
  · refine Or.inr ⟨by omega, h1.1, by unfold par; omega, by omega, ?_⟩
    intro c hc hpc hc0
    rcases hch c hc0 hpc with rfl | rfl
    · omega
    · have h2' : ¬ (2 * j + 2 < l.length ∧ ¬ dAt l (2 * j + 1) < dAt l (2 * j + 2)) := h2
      omega
  · refine Or.inr ⟨by omega, h2.1, by unfold par; omega, by omega, ?_⟩
    intro c hc hpc hc0
    rcases hch c hc0 hpc with rfl | rfl
    · have h1' : ¬ (2 * j + 1 < l.length ∧ ¬ dAt l j < dAt l (2 * j + 1)) := h1
      omega
    · omega
  · refine Or.inl ⟨rfl, ?_⟩
    intro c hc hpc hc0
    rcases hch c hc0 hpc with rfl | rfl
    · have h1' : ¬ (2 * j + 1 < l.length ∧ ¬ dAt l j < dAt l (2 * j + 1)) := h1
      omega
    · have h2' : ¬ (2 * j + 2 < l.length ∧ ¬ dAt l j < dAt l (2 * j + 2)) := h2
      omega

theorem heapOrdered_of_downOK {l : List HeapNode} {j : Nat} (hok : DownOK l j)
    (hch : ∀ c, c < l.length → par c = j → 0 < c → dAt l j ≤ dAt l c) :
    HeapOrdered l := by
  intro i hi hi0
  by_cases hp : par i = j
  · rw [hp]; exact hch i hi hp hi0
  · exact hok.1 i hi hi0 hp

theorem bubbleDownFuel_ordered :
    ∀ (fuel : Nat) (h : MinHeap) (j : Nat), DownOK h.heap j →
      h.heap.length ≤ fuel + j → HeapOrdered (MinHeap.bubbleDownFuel h fuel j).heap := by
  intro fuel
  induction fuel with
  | zero =>
    intro h j hok hlen
    unfold MinHeap.bubbleDownFuel
    intro i hi hi0
    have hpar : par i ≠ j := by
      have := par_lt hi0
      omega
    exact hok.1 i hi hi0 hpar
  | succ fuel ih =>
    intro h j hok hlen
    unfold MinHeap.bubbleDownFuel
    rcases downSmallest_spec h.heap j with ⟨hs, hmin⟩ | ⟨hjs, hslen, hpars, hsj, hmin⟩
    · rw [if_pos hs]
      exact heapOrdered_of_downOK hok hmin
    · rw [if_neg (by omega : ¬ downSmallest h.heap j = j)]
      revert hjs hslen hpars hsj hmin
      generalize downSmallest h.heap j = s
      intro hjs hslen hpars hsj hmin
      have hjlen : j < h.heap.length := by omega
      have hvals := dAt_swapNodes hjlen hslen (by omega : j ≠ s)
      have hlen' := swapNodes_length h j s
      apply ih
      · constructor
        · intro i hi hi0 hpi
          rw [hlen'] at hi
          rw [hvals i, hvals (par i)]
          have hpi_lt := par_lt hi0
          by_cases hij : i = j
          · subst hij
            rw [if_pos rfl, if_neg (by omega : ¬ par i = i), if_neg (by omega : ¬ par i = s)]
            exact hok.2 hi0 s hslen hpars
          · by_cases his : i = s
            · subst his
              rw [if_neg hij, if_pos rfl, hpars, if_pos rfl]
              exact hsj
            · rw [if_neg hij, if_neg his]
              by_cases hpij : par i = j
              · rw [if_pos hpij]
                exact hmin i hi hpij hi0
              · rw [if_neg hpij, if_neg (by omega : ¬ par i = s)]
                exact hok.1 i hi hi0 hpij
        · intro hs0 c hc hpc
          rw [hlen'] at hc
          rw [hvals c, hvals (par s)]
          have hc0 : 0 < c := by
            rcases Nat.eq_zero_or_pos c with hc0 | hc0
            · exfalso; rw [hc0] at hpc; unfold par at hpc; omega
            · exact hc0
          have hcs : s < c := by
            have := par_lt hc0
            omega
          rw [hpars, if_pos rfl, if_neg (by omega : ¬ c = j), if_neg (by omega : ¬ c = s)]
          have h1 := hok.1 c hc hc0 (by omega : ¬ par c = j)
          rw [hpc] at h1
          exact h1
      · rw [hlen']
        omega

theorem bubbleUpFuel_ordered :
    ∀ (fuel : Nat) (h : MinHeap) (j : Nat), UpOK h.heap j → j ≤ fuel →
      j < h.heap.length → HeapOrdered (MinHeap.bubbleUpFuel h fuel j).heap := by
  intro fuel
  induction fuel with
  | zero =>
    intro h j hok hfuel _
    have hj0 : j = 0 := by omega
    subst hj0
    unfold MinHeap.bubbleUpFuel
    intro i hi hi0
    exact hok.1 i hi hi0 (by omega)
  | succ fuel ih =>
    intro h j hok hfuel hjlen
    unfold MinHeap.bubbleUpFuel
    by_cases hj0 : j = 0
    · rw [if_pos hj0]
      subst hj0
      intro i hi hi0
      exact hok.1 i hi hi0 (by omega)
    · rw [if_neg hj0]
      by_cases hstop : dAt h.heap (par j) < dAt h.heap j
      · rw [if_pos hstop]
        intro i hi hi0
        by_cases hij : i = j
        · subst hij; omega
        · exact hok.1 i hi hi0 hij
      · rw [if_neg hstop]
        have hj0' : 0 < j := by omega
        have hpj_lt : par j < j := par_lt hj0'
        have hpjlen : par j < h.heap.length := by omega
        have hvals := dAt_swapNodes hjlen hpjlen (by omega : j ≠ par j)
        have hlen' := swapNodes_length h j (par j)
        apply ih
        · constructor
          · intro i hi hi0 hipj
            rw [hlen'] at hi
            rw [hvals i, hvals (par i)]
            have hpi_lt := par_lt hi0
            by_cases hij : i = j
            · subst hij
              rw [if_pos rfl, if_neg (by omega : ¬ par i = i), if_pos rfl]
              omega
            · by_cases hpij : par i = j
              · rw [if_neg hij, if_neg hipj, if_pos hpij]
                exact hok.2 hj0' i hi hpij
              · by_cases hpipj : par i = par j
                · rw [if_neg hij, if_neg hipj, if_neg hpij, if_pos hpipj]
                  have h1 : dAt h.heap (par i) ≤ dAt h.heap i := hok.1 i hi hi0 hij
                  rw [hpipj] at h1
                  omega
                · rw [if_neg hij, if_neg hipj, if_neg hpij, if_neg hpipj]
                  exact hok.1 i hi hi0 hij
          · intro hpj0 c hc hpc
            rw [hlen'] at hc
            rw [hvals c, hvals (par (par j))]
            have hppj_lt : par (par j) < par j := par_lt hpj0
            have hc0 : 0 < c := by
              rcases Nat.eq_zero_or_pos c with hc0 | hc0
              · exfalso
                rw [hc0] at hpc
                have hp0 : par 0 = 0 := rfl
                omega
              · exact hc0
            have hcpj : par j < c := by
              have := par_lt hc0
              omega
            have hne1 : ¬ par (par j) = j := by omega
            have hne2 : ¬ par (par j) = par j := by omega
            rw [if_neg hne1, if_neg hne2]
            by_cases hcj : c = j
            · subst hcj
              rw [if_pos rfl]
              exact hok.1 (par c) hpjlen hpj0 (by omega)
            · rw [if_neg hcj, if_neg (by omega : ¬ c = par j)]
              have h1 : dAt h.heap (par c) ≤ dAt h.heap c := hok.1 c hc hc0 hcj
              have h2 : dAt h.heap (par (par j)) ≤ dAt h.heap (par j) :=
                hok.1 (par j) hpjlen hpj0 (by omega)
              rw [hpc] at h1
              omega
        · omega
        · rw [hlen']
          omega

theorem bubbleUpFuel_length :
    ∀ (fuel : Nat) (h : MinHeap) (j : Nat),
      (MinHeap.bubbleUpFuel h fuel j).heap.length = h.heap.length := by
  intro fuel
  induction fuel with
  | zero => intro h j; rfl
  | succ fuel ih =>
    intro h j
    unfold MinHeap.bubbleUpFuel
    by_cases hj0 : j = 0
    · rw [if_pos hj0]
    · rw [if_neg hj0]
      by_cases hstop : dAt h.heap (par j) < dAt h.heap j
      · rw [if_pos hstop]
      · rw [if_neg hstop, ih, swapNodes_length]

theorem bubbleDownFuel_length :
    ∀ (fuel : Nat) (h : MinHeap) (j : Nat),
      (MinHeap.bubbleDownFuel h fuel j).heap.length = h.heap.length := by
  intro fuel
  induction fuel with
  | zero => intro h j; rfl
  | succ fuel ih =>
    intro h j
    unfold MinHeap.bubbleDownFuel
    by_cases hs : downSmallest h.heap j = j
    · rw [if_pos hs]
    · rw [if_neg hs, ih, swapNodes_length]

theorem bubbleUpFuel_mapConsistent :
    ∀ (fuel : Nat) (h : MinHeap) (j : Nat), MapConsistent h → j < h.heap.length →
      MapConsistent (MinHeap.bubbleUpFuel h fuel j) := by
  intro fuel
  induction fuel with
  | zero => intro h j hmc _; exact hmc
  | succ fuel ih =>
    intro h j hmc hjlen
    unfold MinHeap.bubbleUpFuel
    by_cases hj0 : j = 0
    · rw [if_pos hj0]; exact hmc
    · rw [if_neg hj0]
      by_cases hstop : dAt h.heap (par j) < dAt h.heap j
      · rw [if_pos hstop]; exact hmc
      · rw [if_neg hstop]
        have hpj_lt : par j < j := par_lt (by omega)
        apply ih
        · exact mapConsistent_swapNodes hmc hjlen (by omega) (by omega)
        · rw [swapNodes_length]
          omega

theorem bubbleDownFuel_mapConsistent :
    ∀ (fuel : Nat) (h : MinHeap) (j : Nat), MapConsistent h → j < h.heap.length →
      MapConsistent (MinHeap.bubbleDownFuel h fuel j) := by
  intro fuel
  induction fuel with
  | zero => intro h j hmc _; exact hmc
  | succ fuel ih =>
    intro h j hmc hjlen
    unfold MinHeap.bubbleDownFuel
    by_cases hs : downSmallest h.heap j = j
    · rw [if_pos hs]; exact hmc
    · rw [if_neg hs]
      rcases downSmallest_spec h.heap j with ⟨hs', _⟩ | ⟨hjs, hslen, _, _, _⟩
      · exact absurd hs' hs
      · apply ih
        · exact mapConsistent_swapNodes hmc hjlen hslen (by omega)
        · rw [swapNodes_length]
          exact hslen

/-- No slot of the heap vector stores the given node id. -/
def NoId (l : List HeapNode) (x : Int) : Prop :=
  ∀ k, k < l.length → (heapGet l k).nodeId ≠ x

theorem noId_swapNodes {h : MinHeap} {i j : Nat} {x : Int} (hi : i < h.heap.length)
    (hj : j < h.heap.length) (hij : i ≠ j) (hno : NoId h.heap x) :
    NoId (h.swapNodes i j).heap x := by
  intro k hk
  rw [swapNodes_length] at hk
  rw [swapNodes_heap hi hj]
  by_cases hki : k = i
  · subst hki; rw [heapGet_listSwap_left hi hij]; exact hno j hj
  · by_cases hkj : k = j
    · subst hkj; rw [heapGet_listSwap_right hj]; exact hno i hi
    · rw [heapGet_listSwap_other hki hkj]; exact hno k hk

theorem bubbleDownFuel_noId :
    ∀ (fuel : Nat) (h : MinHeap) (j : Nat) (x : Int), NoId h.heap x →
      j < h.heap.length → NoId (MinHeap.bubbleDownFuel h fuel j).heap x := by
  intro fuel
  induction fuel with
  | zero => intro h j x hno _; exact hno
  | succ fuel ih =>
    intro h j x hno hjlen
    unfold MinHeap.bubbleDownFuel
    by_cases hs : downSmallest h.heap j = j
    · rw [if_pos hs]; exact hno
    · rw [if_neg hs]
      rcases downSmallest_spec h.heap j with ⟨hs', _⟩ | ⟨hjs, hslen, _, _, _⟩
      · exact absurd hs' hs
      · apply ih
        · exact noId_swapNodes hjlen hslen (by omega) hno
        · rw [swapNodes_length]
          exact hslen

theorem contains_false_of_noId {h : MinHeap} (hmc : MapConsistent h) {x : Int}
    (hno : NoId h.heap x) : h.contains x = false := by
  unfold MinHeap.contains
  cases hm : h.nodeToIndex x with
  | none => rfl
  | some i =>
    obtain ⟨hi, hid⟩ := hmc.2 x i hm
    exact absurd hid (hno i hi)

/-! ## The public operations preserve the invariant -/

theorem minHeapInv_empty : MinHeapInv ⟨[], fun _ => none⟩ := by
  refine ⟨?_, ?_, ?_⟩
  · intro i hi _; simp at hi
  · intro j hj; simp at hj
  · intro k i hk; cases hk

theorem minHeapInv_clear (h : MinHeap) : MinHeapInv h.clear :=
  minHeapInv_empty

theorem upOK_set_lower {l : List HeapNode} {j : Nat} (hj : j < l.length)
    (ho : HeapOrdered l) {x : HeapNode} (hx : x.distance ≤ dAt l j) :
    UpOK (l.set j x) j := by
  have hlen : (l.set j x).length = l.length := by simp
  have hget : ∀ k, heapGet (l.set j x) k = if k = j then x else heapGet l k := by
    intro k
    by_cases hkj : k = j
    · subst hkj; rw [heapGet_set_self _ _ _ hj, if_pos rfl]
    · rw [heapGet_set_ne _ _ _ _ (fun he => hkj he.symm), if_neg hkj]
  have hd : ∀ k, dAt (l.set j x) k = if k = j then x.distance else dAt l k := by
    intro k
    rw [dAt_eq, hget k]
    by_cases hkj : k = j
    · rw [if_pos hkj, if_pos hkj]
    · rw [if_neg hkj, if_neg hkj]; rfl
  constructor
  · intro i hi hi0 hij
    rw [hlen] at hi
    rw [hd i, hd (par i), if_neg hij]
    by_cases hpij : par i = j
    · rw [if_pos hpij]
      have := ho i hi hi0
      rw [hpij] at this
      omega
    · rw [if_neg hpij]
      exact ho i hi hi0
  · intro hj0 c hc hpc
    rw [hlen] at hc
    have hc0 : 0 < c := by
      rcases Nat.eq_zero_or_pos c with hc0 | hc0
      · exfalso
        rw [hc0] at hpc
        have hp0 : par 0 = 0 := rfl
        omega
      · exact hc0
    have hcj : c ≠ j := by
      have := par_lt hc0
      omega
    have hpjj : par j ≠ j := by
      have := par_lt hj0
      omega
    rw [hd c, hd (par j), if_neg hcj, if_neg hpjj]
    have h1 := ho j hj hj0
    have h2 := ho c hc hc0
    rw [hpc] at h2
    omega

theorem upOK_append {l : List HeapNode} (ho : HeapOrdered l) (x : HeapNode) :
    UpOK (l ++ [x]) l.length := by
  have hlen : (l ++ [x]).length = l.length + 1 := by simp
  constructor
  · intro i hi hi0 hij
    rw [hlen] at hi
    have hilen : i < l.length := by omega
    have hpi : par i < l.length := by
      have := par_lt hi0
      omega
    rw [dAt_eq, dAt_eq, heapGet_append_lt _ _ _ hilen, heapGet_append_lt _ _ _ hpi]
    exact ho i hilen hi0
  · intro hl0 c hc hpc
    exfalso
    rw [hlen] at hc
    unfold par at hpc
    omega

theorem mapConsistent_set_id {h : MinHeap} (hmc : MapConsistent h) {index : Nat}
    (hidx : index < h.heap.length) (nd : Int) :
    MapConsistent ⟨h.heap.set index ⟨(heapGet h.heap index).nodeId, nd⟩, h.nodeToIndex⟩ := by
  have hid : ∀ k, (heapGet (h.heap.set index ⟨(heapGet h.heap index).nodeId, nd⟩) k).nodeId =
      (heapGet h.heap k).nodeId := by
    intro k
    by_cases hkj : k = index
    · subst hkj; rw [heapGet_set_self _ _ _ hidx]
    · rw [heapGet_set_ne _ _ _ _ (fun he => hkj he.symm)]
  constructor
  · intro k hk
    simp only [List.length_set] at hk
    rw [hid k]
    exact hmc.1 k hk
  · intro x i hx
    obtain ⟨hi, hix⟩ := hmc.2 x i hx
    refine ⟨by simpa using hi, ?_⟩
    rw [hid i]
    exact hix

theorem minHeapInv_decreaseKeyAt {h : MinHeap} (hinv : MinHeapInv h) {index : Nat}
    (hidx : index < h.heap.length) (nd : Int) :
    MinHeapInv (h.decreaseKeyAt index nd) := by
  unfold MinHeap.decreaseKeyAt
  by_cases hle : (heapGet h.heap index).distance ≤ nd
  · rw [if_pos hle]; exact hinv
  · rw [if_neg hle]
    unfold MinHeap.bubbleUp
    constructor
    · apply bubbleUpFuel_ordered
      · exact upOK_set_lower hidx hinv.1
          (show nd ≤ dAt h.heap index by rw [dAt_eq]; omega)
      · exact le_refl index
      · show index < (h.heap.set index ⟨(heapGet h.heap index).nodeId, nd⟩).length
        simpa using hidx
    · apply bubbleUpFuel_mapConsistent
      · exact mapConsistent_set_id hinv.2 hidx nd
      · show index < (h.heap.set index ⟨(heapGet h.heap index).nodeId, nd⟩).length
        simpa using hidx

theorem mapConsistent_append_new {h : MinHeap} (hmc : MapConsistent h) {n : Int}
    (hnone : h.nodeToIndex n = none) (d : Int) :
    MapConsistent ⟨h.heap ++ [⟨n, d⟩], mapInsert h.nodeToIndex n h.heap.length⟩ := by
  have hlen : (h.heap ++ [(⟨n, d⟩ : HeapNode)]).length = h.heap.length + 1 := by simp
  constructor
  · intro k hk
    rw [hlen] at hk
    by_cases hkl : k = h.heap.length
    · subst hkl
      rw [heapGet_append_self]
      simp [mapInsert]
    · have hklt : k < h.heap.length := by omega
      rw [heapGet_append_lt _ _ _ hklt]
      have hne : (heapGet h.heap k).nodeId ≠ n := by
        intro he
        have := hmc.1 k hklt
        rw [he, hnone] at this
        cases this
      simp only [mapInsert, if_neg hne]
      exact hmc.1 k hklt
  · intro x i hx
    simp only [mapInsert] at hx
    by_cases hxn : x = n
    · rw [if_pos hxn] at hx
      have : i = h.heap.length := (Option.some_injective _ hx).symm
      subst this
      rw [hlen]
      refine ⟨by omega, ?_⟩
      rw [heapGet_append_self, hxn]
    · rw [if_neg hxn] at hx
      obtain ⟨hi, hix⟩ := hmc.2 x i hx
      rw [hlen]
      refine ⟨by omega, ?_⟩
      rw [heapGet_append_lt _ _ _ hi]
      exact hix

theorem minHeapInv_addNode {h : MinHeap} (hinv : MinHeapInv h) (n d : Int) :
    MinHeapInv (h.addNode n d) := by
  unfold MinHeap.addNode
  cases hm : h.nodeToIndex n with
  | some index =>
    obtain ⟨hidx, _⟩ := hinv.2.2 n index hm
    exact minHeapInv_decreaseKeyAt hinv hidx d
  | none =>
    show MinHeapInv (MinHeap.bubbleUpFuel
      ⟨h.heap ++ [⟨n, d⟩], mapInsert h.nodeToIndex n h.heap.length⟩
      h.heap.length h.heap.length)
    constructor
    · apply bubbleUpFuel_ordered
      · exact upOK_append hinv.1 ⟨n, d⟩
      · exact le_refl _
      · show h.heap.length < (h.heap ++ [(⟨n, d⟩ : HeapNode)]).length
        simp
    · apply bubbleUpFuel_mapConsistent
      · exact mapConsistent_append_new hinv.2 hm d
      · show h.heap.length < (h.heap ++ [(⟨n, d⟩ : HeapNode)]).length
        simp

theorem minHeapInv_decreaseKey {h : MinHeap} (hinv : MinHeapInv h) (n d : Int) :
    ∀ h', h.decreaseKey n d = .ok h' → MinHeapInv h' := by
  intro h' hok
  unfold MinHeap.decreaseKey at hok
  cases hm : h.nodeToIndex n with
  | none => rw [hm] at hok; cases hok
  | some index =>
    rw [hm] at hok
    obtain ⟨hidx, _⟩ := hinv.2.2 n index hm
    have : h.decreaseKeyAt index d = h' := by
      injection hok
    rw [← this]
    exact minHeapInv_decreaseKeyAt hinv hidx d

/-! ## deleteRoot: result characterisation -/

theorem heapOrdered_root_min {l : List HeapNode} (ho : HeapOrdered l) :
    ∀ i, i < l.length → dAt l 0 ≤ dAt l i := by
  intro i
  induction i using Nat.strong_induction_on with
  | _ i ih =>
    intro hi
    rcases Nat.eq_zero_or_pos i with h0 | h0
    · subst h0; exact le_refl _
    · have hp := par_lt h0
      exact le_trans (ih (par i) hp (by omega)) (ho i hi h0)

theorem deleteRoot_cons {m : Int → Option Nat} {root : HeapNode} {rest : List HeapNode} :
    MinHeap.deleteRoot ⟨root :: rest, m⟩ =
      (if rest = [] then .ok (root, (⟨[], fun _ => none⟩ : MinHeap))
      else .ok (root, MinHeap.bubbleDown
        ⟨((root :: rest).set 0 (heapGet (root :: rest) ((root :: rest).length - 1))).dropLast,
          mapInsert (mapErase m root.nodeId)
            (heapGet (root :: rest) ((root :: rest).length - 1)).nodeId 0⟩ 0)) := rfl

theorem deleteRoot_empty {h : MinHeap} (he : h.heap = []) :
    h.deleteRoot = .error "Cannot delete from empty heap" := by
  obtain ⟨l, m⟩ := h
  simp only at he
  subst he
  rfl

theorem deleteRoot_ok {h : MinHeap} (hinv : MinHeapInv h) (hne : h.heap ≠ []) :
    ∃ h', h.deleteRoot = .ok (heapGet h.heap 0, h') ∧ MinHeapInv h' ∧
      h'.contains (heapGet h.heap 0).nodeId = false := by
  obtain ⟨l, m⟩ := h
  simp only at hne ⊢
  have ho : HeapOrdered l := hinv.1
  have hmc : MapConsistent ⟨l, m⟩ := hinv.2
  have hmc1 : ∀ j, j < l.length → m (heapGet l j).nodeId = some j := hmc.1
  have hmc2 : ∀ k i, m k = some i → i < l.length ∧ (heapGet l i).nodeId = k := hmc.2
  have hinj : ∀ i j, i < l.length → j < l.length →
      (heapGet l i).nodeId = (heapGet l j).nodeId → i = j :=
    fun i j hi hj he => mapConsistent_id_inj hmc hi hj he
  cases l with
  | nil => exact absurd rfl hne
  | cons root rest =>
    by_cases hrest : rest = []
    · subst hrest
      refine ⟨⟨[], fun _ => none⟩, ?_, minHeapInv_empty, rfl⟩
      rw [deleteRoot_cons, if_pos rfl]
      rfl
    · have hlen2 : 2 ≤ (root :: rest).length := by
        cases rest with
        | nil => exact absurd rfl hrest
        | cons a t => simp only [List.length_cons]; omega
      have hroot0 : heapGet (root :: rest) 0 = root := rfl
      have hl0len : (((root :: rest).set 0
          (heapGet (root :: rest) ((root :: rest).length - 1))).dropLast).length =
          (root :: rest).length - 1 := by
        simp [List.length_dropLast]
      have hget0 : ∀ k, k < (root :: rest).length - 1 →
          heapGet (((root :: rest).set 0
            (heapGet (root :: rest) ((root :: rest).length - 1))).dropLast) k =
          if k = 0 then heapGet (root :: rest) ((root :: rest).length - 1)
          else heapGet (root :: rest) k := by
        intro k hk
        rw [heapGet_dropLast _ _ (by simp only [List.length_set]; omega)]
        by_cases hk0 : k = 0
        · subst hk0
          rw [heapGet_set_self _ _ _ (by simp only [List.length_cons]; omega), if_pos rfl]
        · rw [heapGet_set_ne _ _ _ _ (fun he => hk0 he.symm), if_neg hk0]
      have hm0 : ∀ x, mapInsert (mapErase m root.nodeId)
          (heapGet (root :: rest) ((root :: rest).length - 1)).nodeId 0 x =
          if x = (heapGet (root :: rest) ((root :: rest).length - 1)).nodeId then some 0
          else if x = root.nodeId then none else m x := by
        intro x
        simp [mapInsert, mapErase]
      have mc₀ : MapConsistent ⟨((root :: rest).set 0
          (heapGet (root :: rest) ((root :: rest).length - 1))).dropLast,
          mapInsert (mapErase m root.nodeId)
            (heapGet (root :: rest) ((root :: rest).length - 1)).nodeId 0⟩ := by
        constructor
        · intro k hk
          simp only at hk ⊢
          rw [hl0len] at hk
          rw [hget0 k hk, hm0]
          by_cases hk0 : k = 0
          · subst hk0
            rw [if_pos rfl, if_pos rfl]
          · rw [if_neg hk0]
            have h1 : (heapGet (root :: rest) k).nodeId ≠
                (heapGet (root :: rest) ((root :: rest).length - 1)).nodeId := by
              intro he
              have := hinj k ((root :: rest).length - 1) (by omega) (by omega) he
              omega
            have h2 : (heapGet (root :: rest) k).nodeId ≠ root.nodeId := by
              intro he
              have := hinj k 0 (by omega) (by omega) (by rw [he, hroot0])
              omega
            rw [if_neg h1, if_neg h2]
            exact hmc1 k (by omega)
        · intro x i hx
          simp only at hx ⊢
          rw [hm0] at hx
          rw [hl0len]
          by_cases hx1 : x = (heapGet (root :: rest) ((root :: rest).length - 1)).nodeId
          · rw [if_pos hx1] at hx
            have hi0 : i = 0 := (Option.some_injective _ hx).symm
            subst hi0
            refine ⟨by omega, ?_⟩
            rw [hget0 0 (by omega), if_pos rfl, hx1]
          · rw [if_neg hx1] at hx
            by_cases hx2 : x = root.nodeId
            · rw [if_pos hx2] at hx; cases hx
            · rw [if_neg hx2] at hx
              obtain ⟨hi, hix⟩ := hmc2 x i hx
              have hine : i ≠ (root :: rest).length - 1 := by
                intro he
                rw [he] at hix
                exact hx1 hix.symm
              have hi0 : i ≠ 0 := by
                intro he
                rw [he, hroot0] at hix
                exact hx2 hix.symm
              refine ⟨by omega, ?_⟩
              rw [hget0 i (by omega), if_neg hi0]
              exact hix
      have hnoid : NoId (((root :: rest).set 0
          (heapGet (root :: rest) ((root :: rest).length - 1))).dropLast) root.nodeId := by
        intro k hk
        rw [hl0len] at hk
        rw [hget0 k hk]
        by_cases hk0 : k = 0
        · subst hk0
          rw [if_pos rfl]
          intro he
          have := hinj ((root :: rest).length - 1) 0 (by omega) (by omega)
            (by rw [he, hroot0])
          omega
        · rw [if_neg hk0]
          intro he
          have := hinj k 0 (by omega) (by omega) (by rw [he, hroot0])
          omega
      have hdown : DownOK (((root :: rest).set 0
          (heapGet (root :: rest) ((root :: rest).length - 1))).dropLast) 0 := by
        constructor
        · intro i hi hi0 hpi
          rw [hl0len] at hi
          have hpilt := par_lt hi0
          rw [dAt_eq, dAt_eq, hget0 i (by omega), hget0 (par i) (by omega),
            if_neg (by omega : ¬ i = 0), if_neg hpi]
          exact ho i (by omega) hi0
        · intro h0
          omega
      refine ⟨MinHeap.bubbleDown ⟨((root :: rest).set 0
          (heapGet (root :: rest) ((root :: rest).length - 1))).dropLast,
          mapInsert (mapErase m root.nodeId)
            (heapGet (root :: rest) ((root :: rest).length - 1)).nodeId 0⟩ 0,
          ?_, ⟨?_, ?_⟩, ?_⟩
      · rw [deleteRoot_cons, if_neg hrest]
        rfl
      · unfold MinHeap.bubbleDown
        apply bubbleDownFuel_ordered
        · exact hdown
        · omega
      · unfold MinHeap.bubbleDown
        apply bubbleDownFuel_mapConsistent
        · exact mc₀
        · simp only
          rw [hl0len]
          omega
      · rw [hroot0]
        apply contains_false_of_noId
        · unfold MinHeap.bubbleDown
          apply bubbleDownFuel_mapConsistent
          · exact mc₀
          · rw [show (MinHeap.mk (((root :: rest).set 0
              (heapGet (root :: rest) ((root :: rest).length - 1))).dropLast)
              (mapInsert (mapErase m root.nodeId)
                (heapGet (root :: rest) ((root :: rest).length - 1)).nodeId 0)).heap.length =
              (root :: rest).length - 1 from hl0len]
            omega
        · unfold MinHeap.bubbleDown
          apply bubbleDownFuel_noId
          · exact hnoid
          · rw [show (MinHeap.mk (((root :: rest).set 0
              (heapGet (root :: rest) ((root :: rest).length - 1))).dropLast)
              (mapInsert (mapErase m root.nodeId)
                (heapGet (root :: rest) ((root :: rest).length - 1)).nodeId 0)).heap.length =
              (root :: rest).length - 1 from hl0len]
            omega

theorem dAt_mem_min {h : MinHeap} (hinv : MinHeapInv h) :
    ∀ e, e ∈ h.heap → dAt h.heap 0 ≤ e.distance := by
  intro e he
  obtain ⟨n, hn⟩ := List.mem_iff_get?.mp he
  have hlt : n < h.heap.length := by
    by_contra hge
    rw [List.get?_eq_none.mpr (by omega)] at hn
    cases hn
  have hge : heapGet h.heap n = e := by
    unfold heapGet
    rw [hn]
    rfl
  calc dAt h.heap 0 ≤ dAt h.heap n := heapOrdered_root_min hinv.1 n hlt
    _ = e.distance := by rw [dAt_eq, hge]

/-! ## Sequences of queue calls -/

/-- One public call of the queue contract: an insert (`addNode`) or a
decrease-priority (`decreaseKey`). -/
inductive HeapOp where
  | add (nodeId distance : Int)
  | decrease (nodeId newDistance : Int)

/-- Apply one call; `decreaseKey` of an absent node throws. -/
def applyHeapOp (h : MinHeap) : HeapOp → Except String MinHeap
  | .add n d => .ok (h.addNode n d)
  | .decrease n d => h.decreaseKey n d

/-- Run a sequence of calls from a given state, stopping at the first throw. -/
def runHeapOpsFrom (h : MinHeap) : List HeapOp → Except String MinHeap
  | [] => .ok h
  | op :: ops =>
    match applyHeapOp h op with
    | .error e => .error e
    | .ok h' => runHeapOpsFrom h' ops

/-- Run a sequence of calls on the freshly constructed (empty) queue. -/
def runHeapOps (ops : List HeapOp) : Except String MinHeap :=
  runHeapOpsFrom ⟨[], fun _ => none⟩ ops

theorem runHeapOpsFrom_inv :
    ∀ (ops : List HeapOp) (h h' : MinHeap), MinHeapInv h →
      runHeapOpsFrom h ops = .ok h' → MinHeapInv h' := by
  intro ops
  induction ops with
  | nil =>
    intro h h' hinv hrun
    unfold runHeapOpsFrom at hrun
    injection hrun with he
    rw [← he]
    exact hinv
  | cons op ops ih =>
    intro h h' hinv hrun
    unfold runHeapOpsFrom at hrun
    cases op with
    | add n d =>
      simp only [applyHeapOp] at hrun
      exact ih _ h' (minHeapInv_addNode hinv n d) hrun
    | decrease n d =>
      simp only [applyHeapOp] at hrun
      cases hdk : MinHeap.decreaseKey h n d with
      | error e => rw [hdk] at hrun; cases hrun
      | ok h'' =>
        rw [hdk] at hrun
        exact ih _ h' (minHeapInv_decreaseKey hinv n d h'' hdk) hrun

theorem runHeapOps_inv {ops : List HeapOp} {h : MinHeap}
    (hrun : runHeapOps ops = .ok h) : MinHeapInv h :=
  runHeapOpsFrom_inv ops _ h minHeapInv_empty hrun

/-! ## Shared solver lemmas -/

theorem dijkstra_invalid_endpoint (fuel : Nat) (g : Graph) (s d b mil : Int)
    (hsd : s ≠ d) (habs : g.getNode s = none ∨ g.getNode d = none) :
    dijkstraWithBattery fuel g s d b mil =
      some ⟨[], none, none, false, "Invalid source or destination node"⟩ := by
  unfold dijkstraWithBattery
  rw [if_neg hsd]
  rcases habs with h | h
  · rw [h]
  · rw [h]
    cases g.getNode s <;> rfl

/-! ## The claims -/

/-- Claim C9: every public `MinHeap` operation (`addNode`, `deleteRoot`,
`decreaseKey`, `clear`) applied to a state satisfying the invariant yields a
state in which the heap-order property holds and the node-to-index mapping
maps exactly the node ids stored in the heap array to their current slots. -/
theorem claim_C9_heap_invariant (h : MinHeap) (hinv : MinHeapInv h) (nodeId d : Int) :
    MinHeapInv (h.addNode nodeId d) ∧
    (∀ r h', h.deleteRoot = .ok (r, h') → MinHeapInv h') ∧
    (∀ h', h.decreaseKey nodeId d = .ok h' → MinHeapInv h') ∧
    MinHeapInv h.clear := by
  refine ⟨minHeapInv_addNode hinv nodeId d, ?_, minHeapInv_decreaseKey hinv nodeId d,
    minHeapInv_clear h⟩
  intro r h' hok
  by_cases hne : h.heap = []
  · rw [deleteRoot_empty hne] at hok
    cases hok
  · obtain ⟨h'', heq, hinv'', _⟩ := deleteRoot_ok hinv hne
    rw [heq] at hok
    have hpair : (heapGet h.heap 0, h'') = (r, h') := by injection hok
    have hh : h'' = h' := congrArg Prod.snd hpair
    rw [← hh]
    exact hinv''

/-- Witness for C9 at the freshly constructed empty queue. -/
theorem claim_C9_witness :
    MinHeapInv ((⟨[], fun _ => none⟩ : MinHeap).addNode 1 5) ∧
    (∀ r h', (⟨[], fun _ => none⟩ : MinHeap).deleteRoot = .ok (r, h') → MinHeapInv h') ∧
    (∀ h', (⟨[], fun _ => none⟩ : MinHeap).decreaseKey 1 5 = .ok h' → MinHeapInv h') ∧
    MinHeapInv (⟨[], fun _ => none⟩ : MinHeap).clear :=
  claim_C9_heap_invariant ⟨[], fun _ => none⟩ minHeapInv_empty 1 5

/-- Claim C8: after any sequence of `addNode` and `decreaseKey` calls,
`deleteRoot` on a non-empty queue returns an entry of minimal priority among
all present entries, after which `contains` reports false for that node, and
`deleteRoot` on an empty queue fails with the empty-queue error. -/
theorem claim_C8_extractMin_contract (ops : List HeapOp) (h : MinHeap)
    (hrun : runHeapOps ops = .ok h) :
    (h.heap = [] → h.deleteRoot = .error "Cannot delete from empty heap") ∧
    (h.heap ≠ [] → ∃ r h', h.deleteRoot = .ok (r, h') ∧
      (∀ e, e ∈ h.heap → r.distance ≤ e.distance) ∧
      h'.contains r.nodeId = false) := by
  have hinv := runHeapOps_inv hrun
  refine ⟨fun he => deleteRoot_empty he, fun hne => ?_⟩
  obtain ⟨h', heq, hinv', hcont⟩ := deleteRoot_ok hinv hne
  exact ⟨heapGet h.heap 0, h', heq, fun e he => dAt_mem_min hinv e he, hcont⟩

/-- The queue state reached by inserting node 1 at priority 5 and node 2 at
priority 3, the concrete input of the C8 witness. -/
def heapWitnessState : MinHeap :=
  match runHeapOps [HeapOp.add 1 5, HeapOp.add 2 3] with
  | .ok h => h
  | .error _ => ⟨[], fun _ => none⟩

/-- Witness for C8 at a concrete two-insert sequence. -/
theorem claim_C8_witness :
    (heapWitnessState.heap = [] →
      heapWitnessState.deleteRoot = .error "Cannot delete from empty heap") ∧
    (heapWitnessState.heap ≠ [] → ∃ r h',
      heapWitnessState.deleteRoot = .ok (r, h') ∧
      (∀ e, e ∈ heapWitnessState.heap → r.distance ≤ e.distance) ∧
      h'.contains r.nodeId = false) :=
  claim_C8_extractMin_contract [HeapOp.add 1 5, HeapOp.add 2 3] heapWitnessState rfl

/-- Claim C5: source equal to destination returns immediately with success,
path `[source]`, zero distance and zero resource use, for any (in particular
any positive) budget and rate. -/
theorem claim_C5_trivial_path (fuel : Nat) (g : Graph) (s b mil : Int)
    (_hb : 0 < b) (_hm : 0 < mil) :
    dijkstraWithBattery fuel g s s b mil =
      some ⟨[s], some 0, some 0, true, "Source and destination are the same"⟩ := by
  unfold dijkstraWithBattery
  rw [if_pos rfl]

/-- Witness for C5. -/
theorem claim_C5_witness :
    dijkstraWithBattery 0 Graph.empty 1 1 1 1 =
      some ⟨[1], some 0, some 0, true, "Source and destination are the same"⟩ :=
  claim_C5_trivial_path 0 Graph.empty 1 1 1 (by decide) (by decide)

/-- Claim C4 (amended): for source distinct from destination, an absent
endpoint yields the invalid-endpoint failure record (the embedding returns it
before any solver state is built); when source equals destination the solver
returns success first, even for absent endpoints, so the distinctness
hypothesis is necessary. -/
theorem claim_C4_invalid_endpoint (fuel : Nat) (g : Graph) (s d b mil : Int)
    (hsd : s ≠ d) (habs : g.getNode s = none ∨ g.getNode d = none) :
    dijkstraWithBattery fuel g s d b mil =
      some ⟨[], none, none, false, "Invalid source or destination node"⟩ :=
  dijkstra_invalid_endpoint fuel g s d b mil hsd habs

/-- Counterexample to C4 as stated: source = destination = 1 is absent from
the empty graph, yet the solver returns a success result, not an
invalid-endpoint failure. -/
theorem claim_C4_counterexample :
    Graph.getNode Graph.empty 1 = none ∧
    dijkstraWithBattery 0 Graph.empty 1 1 10 10 =
      some ⟨[1], some 0, some 0, true, "Source and destination are the same"⟩ :=
  ⟨rfl, rfl⟩

/-- Witness for the amended C4. -/
theorem claim_C4_witness :
    dijkstraWithBattery 2 Graph.empty 5 6 7 9 =
      some ⟨[], none, none, false, "Invalid source or destination node"⟩ :=
  claim_C4_invalid_endpoint 2 Graph.empty 5 6 7 9 (by decide) (Or.inl rfl)

/-- Claim C3 (amended): on a zero-node graph with source distinct from
destination the solver fails with the invalid-endpoint message, because the
endpoint-existence check precedes the `getNodeCount() == 0` check; the
"Graph is empty" branch is unreachable for valid calls. -/
theorem claim_C3_empty_graph (fuel : Nat) (g : Graph) (s d b mil : Int)
    (hsd : s ≠ d) (hg : g.nodes = []) :
    dijkstraWithBattery fuel g s d b mil =
      some ⟨[], none, none, false, "Invalid source or destination node"⟩ := by
  apply dijkstra_invalid_endpoint fuel g s d b mil hsd
  left
  unfold Graph.getNode
  rw [hg]
  rfl

/-- Counterexample to C3 as stated: on the empty graph, solving 1 to 2
reports the invalid-endpoint message, not "Graph is empty". -/
theorem claim_C3_counterexample :
    Graph.empty.getNodeCount = 0 ∧
    (dijkstraWithBattery 0 Graph.empty 1 2 10 10).map (fun r => r.message) =
      some "Invalid source or destination node" ∧
    "Invalid source or destination node" ≠ "Graph is empty" :=
  ⟨rfl, rfl, by decide⟩

/-- Witness for the amended C3. -/
theorem claim_C3_witness :
    dijkstraWithBattery 3 Graph.empty 4 7 2 3 =
      some ⟨[], none, none, false, "Invalid source or destination node"⟩ :=
  claim_C3_empty_graph 3 Graph.empty 4 7 2 3 (by decide) rfl

/-- The two-node edgeless graph used for the unreachable-destination claim. -/
def disconnectedPair : Graph := (Graph.empty.addNode 1).addNode 2

/-- Claim C2 evaluated at a disconnected instance: the failure result has an
empty path and the success flag cleared, but the fields `totalDistance` and
`totalBatteryUsed` are never assigned on this branch (indeterminate in the
C++ struct, `none` in the model) — not the zero the claim states. -/
theorem claim_C2_unreachable_eval :
    dijkstraWithBattery 10 disconnectedPair 1 2 10 10 =
      some ⟨[], none, none, false, "No path exists within battery constraints"⟩ := by
  decide

/-- Claim C6: the per-edge resource charge is `max(1, floor(w / r))` for
non-negative weight and positive rate, and in particular exactly 1 whenever
`w / r < 1`, that is whenever `w < r`. -/
theorem claim_C6_resource_floor (w r : Int) (hw : 0 ≤ w) (hr : 0 < r) :
    batteryConsumption w r = max 1 (Int.fdiv w r) ∧
    (w < r → batteryConsumption w r = 1) := by
  have ht : Int.tdiv w r = w / r := Int.tdiv_eq_ediv hw (le_of_lt hr)
  have hf : Int.fdiv w r = w / r := Int.fdiv_eq_ediv w (le_of_lt hr)
  have hnn : 0 ≤ w / r := Int.ediv_nonneg hw (le_of_lt hr)
  constructor
  · simp only [batteryConsumption]
    rw [ht, hf]
    by_cases hlt : w / r < 1
    · rw [if_pos hlt]
      exact (max_eq_left (by omega)).symm
    · rw [if_neg hlt]
      exact (max_eq_right (by omega)).symm
  · intro hwr
    have hz : w / r = 0 := Int.ediv_eq_zero_of_lt hw hwr
    simp only [batteryConsumption]
    rw [ht, hz]
    rfl

/-- Witness for C6. -/
theorem claim_C6_witness :
    batteryConsumption 5 10 = max 1 (Int.fdiv 5 10) ∧
    ((5 : Int) < 10 → batteryConsumption 5 10 = 1) :=
  claim_C6_resource_floor 5 10 (by decide) (by decide)

/-- The spec's concrete scenario graph: nodes 1,2,3 with undirected edges
(1,2) and (2,3) of weight 10 each, built through `Graph::addEdge`. -/
def specScenarioGraph : Graph := (Graph.empty.addEdge 1 2 10).addEdge 2 3 10

/-- Claim C7: on the concrete scenario graph, solving 1 to 3 with rate 10 and
budget 2 yields the path [1,2,3] with total distance 20 and resource use 2. -/
theorem claim_C7_concrete_scenario :
    dijkstraWithBattery 100 specScenarioGraph 1 3 2 10 =
      some ⟨[1, 2, 3], some 20, some 2, true, "Path found successfully"⟩ := by
  decide

/-- The budget-trap graph: a cheap unit-weight chain 1-2-3-4-5-6, a heavy
shortcut edge (1,6) of weight 100, and a unit-weight tail 6-7-8.  At rate
1000 every edge costs one resource unit. -/
def budgetTrapGraph : Graph :=
  (((((((Graph.empty.addEdge 1 2 1).addEdge 2 3 1).addEdge 3 4 1).addEdge
    4 5 1).addEdge 5 6 1).addEdge 1 6 100).addEdge 6 7 1).addEdge 7 8 1

/-- Counterexample to C1 as stated: on the budget-trap graph with rate 1000,
solving 1 to 8 succeeds with budget 3 but is infeasible with the larger
budget 6 — raising the budget lets the cheap chain capture node 6 with a
higher resource usage, after which the tail exceeds the budget. -/
theorem claim_C1_counterexample :
    (3 : Int) ≤ 6 ∧
    (dijkstraWithBattery 100 budgetTrapGraph 1 8 3 1000).map (fun r => r.success) =
      some true ∧
    (dijkstraWithBattery 100 budgetTrapGraph 1 8 6 1000).map (fun r => r.success) =
      some false := by
  decide

/-- Claim C1 (amended): budget monotonicity holds only for the individual
relaxation gate — any single relaxation admitted under budget `b` is admitted
under any budget `b' ≥ b` — while end-to-end success and reported distance
are not monotone in the budget (see the counterexample). -/
theorem claim_C1_relax_gate_monotone (b b' u nd cur : Int) (hbb : b ≤ b')
    (hok : relaxCondition b u nd cur = true) : relaxCondition b' u nd cur = true := by
  simp only [relaxCondition, Bool.and_eq_true, decide_eq_true_eq] at hok ⊢
  omega

/-- Witness for the amended C1. -/
theorem claim_C1_witness : relaxCondition 6 2 5 7 = true :=
  claim_C1_relax_gate_monotone 3 6 2 5 7 (by decide) (by decide)

/-- Claim C10: `Graph::getNeighbors` never signals an error; for a node id
with no adjacency-list entry it returns the empty list. -/
theorem claim_C10_getNeighbors_total (g : Graph) (node : Int)
    (habs : g.adjacencyList node = none) : g.getNeighbors node = [] := by
  unfold Graph.getNeighbors
  rw [habs]

/-- Witness for C10. -/
theorem claim_C10_witness : Graph.getNeighbors Graph.empty 42 = [] :=
  claim_C10_getNeighbors_total Graph.empty 42 rfl
